import Mathlib

/-!
Verification of the YouTube-mind-map demo application (main.py, vision.py)
against its natural-language specification.  Python functions are shallowly
embedded as total Lean functions; a Python function that can raise an
unhandled exception, or that catches an exception and returns `None`, is
embedded with an `Option` result where `none` marks the exceptional outcome.
-/

/-- JSON values as produced by the external JSON parser (`json.loads`).
Numbers keep their raw lexeme so that every syntactically valid JSON number
is representable without floating point. -/
inductive Json where
  | null : Json
  | bool (b : Bool) : Json
  | num (lexeme : String) : Json
  | str (s : String) : Json
  | arr (elems : List Json) : Json
  | obj (pairs : List (String × Json)) : Json

mutual

/-- Structural equality test on JSON values (Python `==` on parsed values). -/
def Json.beq : Json → Json → Bool
  | .null, .null => true
  | .bool a, .bool b => a == b
  | .num a, .num b => a == b
  | .str a, .str b => a == b
  | .arr xs, .arr ys => Json.beqList xs ys
  | .obj xs, .obj ys => Json.beqPairs xs ys
  | _, _ => false

def Json.beqList : List Json → List Json → Bool
  | [], [] => true
  | x :: xs, y :: ys => Json.beq x y && Json.beqList xs ys
  | _, _ => false

def Json.beqPairs : List (String × Json) → List (String × Json) → Bool
  | [], [] => true
  | (k1, v1) :: xs, (k2, v2) :: ys => k1 == k2 && Json.beq v1 v2 && Json.beqPairs xs ys
  | _, _ => false

end

mutual

theorem Json.eq_of_beq : ∀ a b : Json, Json.beq a b = true → a = b
  | .null, .null, _ => rfl
  | .bool _, .bool _, h => by simpa [Json.beq] using h
  | .num _, .num _, h => by simpa [Json.beq] using h
  | .str _, .str _, h => by simpa [Json.beq] using h
  | .arr xs, .arr ys, h => by
      rw [Json.eqList_of_beqList xs ys (by simpa [Json.beq] using h)]
  | .obj xs, .obj ys, h => by
      rw [Json.eqPairs_of_beqPairs xs ys (by simpa [Json.beq] using h)]

theorem Json.eqList_of_beqList : ∀ xs ys : List Json, Json.beqList xs ys = true → xs = ys
  | [], [], _ => rfl
  | x :: xs, y :: ys, h => by
      simp only [Json.beqList, Bool.and_eq_true] at h
      rw [Json.eq_of_beq x y h.1, Json.eqList_of_beqList xs ys h.2]

theorem Json.eqPairs_of_beqPairs :
    ∀ xs ys : List (String × Json), Json.beqPairs xs ys = true → xs = ys
  | [], [], _ => rfl
  | (k1, v1) :: xs, (k2, v2) :: ys, h => by
      simp only [Json.beqPairs, Bool.and_eq_true, beq_iff_eq] at h
      rw [h.1.1, Json.eq_of_beq v1 v2 h.1.2, Json.eqPairs_of_beqPairs xs ys h.2]

end

mutual

theorem Json.beq_refl : ∀ a : Json, Json.beq a a = true
  | .null => rfl
  | .bool b => by simp [Json.beq]
  | .num n => by simp [Json.beq]
  | .str s => by simp [Json.beq]
  | .arr xs => by simpa [Json.beq] using Json.beqList_refl xs
  | .obj xs => by simpa [Json.beq] using Json.beqPairs_refl xs

theorem Json.beqList_refl : ∀ xs : List Json, Json.beqList xs xs = true
  | [] => rfl
  | x :: xs => by
      simp only [Json.beqList, Bool.and_eq_true]
      exact ⟨Json.beq_refl x, Json.beqList_refl xs⟩

theorem Json.beqPairs_refl : ∀ xs : List (String × Json), Json.beqPairs xs xs = true
  | [] => rfl
  | (k, v) :: xs => by
      simp only [Json.beqPairs, Bool.and_eq_true]
      exact ⟨⟨by simp, Json.beq_refl v⟩, Json.beqPairs_refl xs⟩

end

instance : DecidableEq Json := fun a b =>
  decidable_of_iff (Json.beq a b = true)
    ⟨Json.eq_of_beq a b, fun h => h ▸ Json.beq_refl a⟩

/-- JSON whitespace characters. -/
def Json.isWs (c : Char) : Bool := c = ' ' || c = '\t' || c = '\n' || c = '\r'

def Json.skipWs : List Char → List Char
  | c :: rest => if Json.isWs c then Json.skipWs rest else c :: rest
  | [] => []

def Json.isDigit (c : Char) : Bool := '0' ≤ c && c ≤ '9'

def Json.isHex (c : Char) : Bool :=
  Json.isDigit c || ('a' ≤ c && c ≤ 'f') || ('A' ≤ c && c ≤ 'F')

def Json.hexVal (c : Char) : Nat :=
  if Json.isDigit c then c.toNat - '0'.toNat
  else if 'a' ≤ c && c ≤ 'f' then c.toNat - 'a'.toNat + 10
  else c.toNat - 'A'.toNat + 10

/-- Body of a JSON string literal, after the opening quote: returns the decoded
string and the remaining characters after the closing quote. -/
def Json.parseStringBody : List Char → Option (String × List Char)
  | [] => none
  | c :: rest =>
    if c = '"' then some ("", rest)
    else if c = '\\' then
      match rest with
      | [] => none
      | e :: rest2 =>
        if e = 'u' then
          match rest2 with
          | h1 :: h2 :: h3 :: h4 :: rest3 =>
            if Json.isHex h1 && Json.isHex h2 && Json.isHex h3 && Json.isHex h4 then
              (Json.parseStringBody rest3).map (fun p =>
                (String.mk (Char.ofNat
                  (((Json.hexVal h1 * 16 + Json.hexVal h2) * 16 + Json.hexVal h3) * 16
                    + Json.hexVal h4) :: p.1.data), p.2))
            else none
          | _ => none
        else
          let d? : Option Char :=
            if e = '"' then some '"'
            else if e = '\\' then some '\\'
            else if e = '/' then some '/'
            else if e = 'b' then some (Char.ofNat 8)
            else if e = 'f' then some (Char.ofNat 12)
            else if e = 'n' then some '\n'
            else if e = 'r' then some '\r'
            else if e = 't' then some '\t'
            else none
          match d? with
          | some d => (Json.parseStringBody rest2).map (fun p =>
              (String.mk (d :: p.1.data), p.2))
          | none => none
    else if c.toNat < 32 then none
    else (Json.parseStringBody rest).map (fun p => (String.mk (c :: p.1.data), p.2))

/-- Fractional part of a JSON number, if present. -/
def Json.parseFrac (acc : List Char) (cs : List Char) : Option (List Char × List Char) :=
  match cs with
  | '.' :: rest =>
    match rest.takeWhile Json.isDigit with
    | [] => none
    | ds => some (acc ++ '.' :: ds, rest.dropWhile Json.isDigit)
  | _ => some (acc, cs)

/-- Exponent part of a JSON number, if present. -/
def Json.parseExp (acc : List Char) (cs : List Char) : Option (List Char × List Char) :=
  match cs with
  | e :: rest =>
    if e = 'e' || e = 'E' then
      let sr : List Char × List Char :=
        match rest with
        | '+' :: r => (['+'], r)
        | '-' :: r => (['-'], r)
        | _ => ([], rest)
      match sr.2.takeWhile Json.isDigit with
      | [] => none
      | ds => some (acc ++ e :: sr.1 ++ ds, sr.2.dropWhile Json.isDigit)
    else some (acc, cs)
  | [] => some (acc, [])

/-- A JSON number lexeme: optional minus, integer part, optional fraction and
exponent; the lexeme is kept verbatim. -/
def Json.parseNumber (cs : List Char) : Option (List Char × List Char) :=
  let nr : List Char × List Char :=
    match cs with
    | '-' :: rest => (['-'], rest)
    | _ => ([], cs)
  match nr.2 with
  | c :: rest =>
    if c = '0' then
      match Json.parseFrac (nr.1 ++ ['0']) rest with
      | some (acc2, rest2) => Json.parseExp acc2 rest2
      | none => none
    else if Json.isDigit c then
      match Json.parseFrac (nr.1 ++ c :: rest.takeWhile Json.isDigit)
          (rest.dropWhile Json.isDigit) with
      | some (acc2, rest2) => Json.parseExp acc2 rest2
      | none => none
    else none
  | [] => none

/-- Python `dict` assignment semantics for object members: a repeated key keeps
its first position but takes the last value. -/
def Json.insertPair : List (String × Json) → String → Json → List (String × Json)
  | [], k, v => [(k, v)]
  | (k0, v0) :: rest, k, v =>
    if k0 = k then (k0, v) :: rest else (k0, v0) :: Json.insertPair rest k v

mutual

/-- One JSON value, by recursive descent with fuel (model of the external
`json.loads` grammar; numbers are kept as lexemes). -/
def Json.parseValue : Nat → List Char → Option (Json × List Char)
  | 0, _ => none
  | fuel + 1, cs =>
    match Json.skipWs cs with
    | [] => none
    | c :: rest =>
      if c = '"' then (Json.parseStringBody rest).map (fun p => (Json.str p.1, p.2))
      else if c = '\x7b' then Json.parseMembers fuel rest true []
      else if c = '[' then Json.parseElems fuel rest true []
      else if c = 't' then
        match rest with
        | 'r' :: 'u' :: 'e' :: rest2 => some (Json.bool true, rest2)
        | _ => none
      else if c = 'f' then
        match rest with
        | 'a' :: 'l' :: 's' :: 'e' :: rest2 => some (Json.bool false, rest2)
        | _ => none
      else if c = 'n' then
        match rest with
        | 'u' :: 'l' :: 'l' :: rest2 => some (Json.null, rest2)
        | _ => none
      else (Json.parseNumber (c :: rest)).map (fun p => (Json.num (String.mk p.1), p.2))

/-- Object members after the opening brace. -/
def Json.parseMembers : Nat → List Char → Bool → List (String × Json) →
    Option (Json × List Char)
  | 0, _, _, _ => none
  | fuel + 1, cs, first, acc =>
    match Json.skipWs cs with
    | [] => none
    | c :: rest =>
      if first && c = '\x7d' then some (Json.obj acc, rest)
      else if c = '"' then
        match Json.parseStringBody rest with
        | none => none
        | some (k, rest2) =>
          match Json.skipWs rest2 with
          | ':' :: rest3 =>
            match Json.parseValue fuel rest3 with
            | none => none
            | some (v, rest4) =>
              match Json.skipWs rest4 with
              | ',' :: rest5 => Json.parseMembers fuel rest5 false (Json.insertPair acc k v)
              | '\x7d' :: rest5 => some (Json.obj (Json.insertPair acc k v), rest5)
              | _ => none
          | _ => none
      else none

/-- Array elements after the opening bracket. -/
def Json.parseElems : Nat → List Char → Bool → List Json → Option (Json × List Char)
  | 0, _, _, _ => none
  | fuel + 1, cs, first, acc =>
    match Json.skipWs cs with
    | [] => none
    | c :: rest =>
      if first && c = ']' then some (Json.arr acc, rest)
      else
        match Json.parseValue fuel (c :: rest) with
        | none => none
        | some (v, rest2) =>
          match Json.skipWs rest2 with
          | ',' :: rest3 => Json.parseElems fuel rest3 false (acc ++ [v])
          | ']' :: rest3 => some (Json.arr (acc ++ [v]), rest3)
          | _ => none

end

/-- Model of `json.loads`: parse one JSON document, allowing surrounding
whitespace and requiring the whole input to be consumed. -/
def Json.parse (s : String) : Option Json :=
  match Json.parseValue (s.length * 2 + 8) s.data with
  | some (j, rest) => if Json.skipWs rest = [] then some j else none
  | none => none

/-- Python `str.find`: index of the first occurrence, if any. -/
def strFind : List Char → Char → Option Nat
  | [], _ => none
  | x :: xs, c => if x = c then some 0 else (strFind xs c).map (· + 1)

/-- Python `str.rfind`: index of the last occurrence, if any. -/
def strRfind (cs : List Char) (c : Char) : Option Nat :=
  (strFind cs.reverse c).map (fun i => cs.length - 1 - i)

/-- Embedding of `extract_json` (main.py): locate the first `\x7b` and the last
`\x7d`; if both exist, slice the substring spanning them inclusive and parse it
with `json.loads`; every failure (missing brace, parse error) is caught and
yields `none`. -/
def extract_json (response_text : String) : Option Json :=
  match strFind response_text.data '\x7b', strRfind response_text.data '\x7d' with
  | some i, some k =>
      Json.parse (String.mk ((response_text.data.drop i).take (k + 1 - i)))
  | _, _ => none

/-- Python `d[k]` on a parsed JSON value: a missing key or a non-dict value
raises (KeyError / TypeError), modeled as `none`. -/
def Json.getKey : Json → String → Option Json
  | .obj pairs, k => List.lookup k pairs
  | _, _ => none

/-- Python iteration (`for x in v`) over a parsed JSON value: a list yields its
elements, a string yields its one-character substrings, a dict yields its keys;
numbers, booleans and `None` are not iterable (TypeError, modeled as `none`). -/
def Json.pyIter : Json → Option (List Json)
  | .arr xs => some xs
  | .str s => some (s.data.map (fun c => Json.str (String.mk [c])))
  | .obj pairs => some (pairs.map (fun p => Json.str p.1))
  | _ => none

/-- A pyvis graph: node ids in insertion order and directed edges in insertion
order.  Only graph structure is modeled; labels, colors, shapes and sizes do
not affect which nodes and edges exist. -/
structure Network where
  nodes : List Json
  edges : List (Json × Json)
deriving DecidableEq

/-- pyvis `Network.add_node`: an id already present is left untouched,
otherwise it is appended. -/
def Network.add_node (net : Network) (id : Json) : Network :=
  if id ∈ net.nodes then net else { net with nodes := net.nodes ++ [id] }

/-- pyvis `Network.add_edge`: both endpoints must already exist (otherwise an
assertion fails, modeled as `none`); the directed edge is appended. -/
def Network.add_edge (net : Network) (src dst : Json) : Option Network :=
  if src ∈ net.nodes ∧ dst ∈ net.nodes then
    some { net with edges := net.edges ++ [(src, dst)] }
  else none

/-- Inner loop of `create_mind_map_visual` (main.py lines 127-129): one node
and one incoming edge per child of a subtopic. -/
def processChildren (net : Network) (sname : Json) : List Json → Option Network
  | [] => some net
  | child :: rest => do
    let cname ← child.getKey "name"
    let net1 := net.add_node cname
    let net2 ← net1.add_edge sname cname
    processChildren net2 sname rest

/-- Outer loop of `create_mind_map_visual` (main.py lines 123-129): one node
and one root edge per subtopic, then its children. -/
def processSubtopics (net : Network) (root : Json) : List Json → Option Network
  | [] => some net
  | subtopic :: rest => do
    let sname ← subtopic.getKey "name"
    let net1 := net.add_node sname
    let net2 ← net1.add_edge root sname
    let childrenVal ← subtopic.getKey "children"
    let children ← childrenVal.pyIter
    let net3 ← processChildren net2 sname children
    processSubtopics net3 root rest

/-- Embedding of `create_mind_map_visual` (main.py lines 115-132): builds the
directed pyvis graph from the parsed mind-map structure.  Any unhandled Python
exception (missing key, non-iterable `children`, edge assertion) is `none`;
writing the HTML file is outside the modeled state. -/
def create_mind_map_visual (mind_map_data : Json) : Option Network := do
  let root_name ← mind_map_data.getKey "title"
  let net0 := (Network.mk [] []).add_node root_name
  let nodesVal ← mind_map_data.getKey "nodes"
  let subtopics ← nodesVal.pyIter
  processSubtopics net0 root_name subtopics

/-- A leaf of the mind-map JSON shape from the prompt template. -/
def mkChild (n : String) : Json := Json.obj [("name", Json.str n)]

/-- A subtopic of the mind-map JSON shape from the prompt template. -/
def mkSub (n : String) (cs : List String) : Json :=
  Json.obj [("name", Json.str n), ("children", Json.arr (cs.map mkChild))]

/-- A well-shaped mind-map JSON document (title plus subtopics). -/
def mkMindMap (t : String) (subs : List (String × List String)) : Json :=
  Json.obj [("title", Json.str t), ("nodes", Json.arr (subs.map fun p => mkSub p.1 p.2))]

/-- The character class `[0-9A-Za-z_-]` of the video-id pattern. -/
def idChar (c : Char) : Bool :=
  ('0' ≤ c && c ≤ '9') || ('A' ≤ c && c ≤ 'Z') || ('a' ≤ c && c ≤ 'z')
    || c = '_' || c = '-'

/-- The `([0-9A-Za-z_-]` repeated exactly 11 times `)` capture group, matched
against the start of `cs`. -/
def matchTok (cs : List Char) : Option (List Char) :=
  if (cs.take 11).length = 11 ∧ (cs.take 11).all idChar = true then some (cs.take 11)
  else none

/-- One attempt of the pattern `(?:v=|\/)` followed by the 11-character capture
group at the current position.  The regex's trailing `.*` always succeeds and
does not affect the capture. -/
def matchAt : List Char → Option (List Char)
  | c1 :: c2 :: rest2 =>
    if c1 = 'v' then (if c2 = '=' then matchTok rest2 else none)
    else if c1 = '/' then matchTok (c2 :: rest2)
    else none
  | [c1] => if c1 = '/' then matchTok [] else none
  | [] => none

/-- `re.search` semantics: try the pattern at each position from the left and
return the first success. -/
def reSearch : List Char → Option (List Char)
  | [] => none
  | c :: rest =>
    match matchAt (c :: rest) with
    | some tok => some tok
    | none => reSearch rest

/-- Embedding of `get_video_id` (main.py lines 55-58): the first match's
captured group of the search, or `None`. -/
def get_video_id (url : String) : Option String :=
  (reSearch url.data).map String.mk

/-- One transcript fragment as returned by the transcript service; the timing
fields are never consulted by the code. -/
structure TranscriptItem where
  text : String
  start : Int
  duration : Int

/-- Embedding of `extract_transcript` (main.py lines 63-71), with the service
call abstracted as its outcome: on success the fragments' `text` fields are
joined with single spaces in order; any service exception is caught and `None`
is returned. -/
def extract_transcript (serviceResult : Except String (List TranscriptItem)) :
    Option String :=
  match serviceResult with
  | .ok transcript_data => some (String.intercalate " " (transcript_data.map (·.text)))
  | .error _ => none

/-- Embedding of `generate_summary` (main.py lines 76-80), with the model call
abstracted as the text field of its response (`none` models a `None` text
field): a truthy text is returned verbatim, a falsy one yields the fixed
warning string. -/
def generate_summary (responseText : Option String) : String :=
  match responseText with
  | none => "⚠️ Error generating summary!"
  | some s => if s = "" then "⚠️ Error generating summary!" else s

/-- Embedding of `generate_mind_map` (main.py lines 102-110), with the model
call abstracted as the text field of its response: a truthy text goes through
`extract_json`, a falsy one is reported and yields `None`. -/
def generate_mind_map (responseText : Option String) : Option Json :=
  match responseText with
  | some s => if s = "" then none else extract_json s
  | none => none

/-- Observable outcome of one button-press pipeline run. -/
structure PipelineResult where
  summaryDisplayed : Option String
  mindMapAttempted : Bool
  mindMap : Option Json
deriving DecidableEq

/-- Embedding of the button handler (main.py lines 157-183) from the point
where the URL was accepted: fetch outcome, then `generate_summary`; a falsy
transcript (`None` or the empty string, by Python truthiness) halts before the
summary request, and mind-map generation runs exactly when the summary string
is truthy. -/
def run_pipeline (transcript : Option String)
    (summaryRespText mindMapRespText : Option String) : PipelineResult :=
  match transcript with
  | none => ⟨none, false, none⟩
  | some t =>
    if t = "" then ⟨none, false, none⟩
    else
      let summary := generate_summary summaryRespText
      if summary = "" then ⟨none, false, none⟩
      else ⟨some summary, true, generate_mind_map mindMapRespText⟩

/-- An uploaded image; the payload is opaque to the code. -/
structure PILImage where
  payload : String

/-- A single generation request as submitted by vision.py. -/
inductive GeminiRequest where
  | textAndImage (prompt : String) (image : PILImage)
  | imageOnly (image : PILImage)

/-- A model response; only its text field is consulted. -/
structure GeminiResponse where
  text : String

/-- Embedding of `get_gemini_response` (vision.py lines 20-26), with the hosted
model abstracted as a function from request to response: a non-empty prompt is
submitted together with the image, an empty one leaves the image alone; the
response text is returned verbatim. -/
def get_gemini_response (model : GeminiRequest → GeminiResponse)
    (input : String) (image : PILImage) : String :=
  if input ≠ "" then (model (GeminiRequest.textAndImage input image)).text
  else (model (GeminiRequest.imageOnly image)).text

/-- The spec's description of the fetcher output: the `text` fields in input
order, with a single space between consecutive fields. -/
def spacedTexts : List TranscriptItem → String
  | [] => ""
  | [item] => item.text
  | item :: next :: rest => item.text ++ " " ++ spacedTexts (next :: rest)

/-- A subtopic entry that makes the renderer raise: it lacks a `name` or a
`children` field, or some child in its `children` list lacks a `name`. -/
def BadSub (s : Json) : Prop :=
  s.getKey "name" = none ∨ s.getKey "children" = none
    ∨ ∃ cs, s.getKey "children" = some (Json.arr cs) ∧ ∃ c ∈ cs, c.getKey "name" = none

/-- The spec's description of a video-id hit in `cs` at offset `pre.length`:
an 11-character token over the allowed character class immediately preceded by
`v=` or `/`. -/
def VideoIdMatch (cs pre tok : List Char) : Prop :=
  (∃ rest, cs = pre ++ 'v' :: '=' :: (tok ++ rest) ∨ cs = pre ++ '/' :: (tok ++ rest))
  ∧ tok.length = 11 ∧ tok.all idChar = true

theorem strFind_eq_none_iff (cs : List Char) (c : Char) : strFind cs c = none ↔ c ∉ cs := by
  induction cs with
  | nil => simp [strFind]
  | cons x xs ih =>
    by_cases hx : x = c
    · subst hx; simp [strFind]
    · simp [strFind, hx, ih, Ne.symm hx]

theorem strFind_append_cons (l r : List Char) (c : Char) (h : c ∉ l) :
    strFind (l ++ c :: r) c = some l.length := by
  induction l with
  | nil => simp [strFind]
  | cons x xs ih =>
    have hx : ¬ x = c := by rintro rfl; exact h (List.mem_cons_self _ _)
    have hc : c ∉ xs := fun hm => h (List.mem_cons_of_mem _ hm)
    simp [strFind, hx, ih hc]

theorem strRfind_append_cons (l r : List Char) (c : Char) (h : c ∉ r) :
    strRfind (l ++ c :: r) c = some l.length := by
  unfold strRfind
  have hrev : (l ++ c :: r).reverse = r.reverse ++ c :: l.reverse := by simp
  rw [hrev, strFind_append_cons _ _ _ (by simpa using h)]
  simp [List.length_append]

theorem extract_json_slice (s : String) (i k : Nat)
    (hf : strFind s.data '\x7b' = some i) (hr : strRfind s.data '\x7d' = some k) :
    extract_json s = Json.parse (String.mk ((s.data.drop i).take (k + 1 - i))) := by
  unfold extract_json
  rw [hf, hr]

/-- C1: `extract_json` is total (no exception escapes, the exceptional outcome
being `none`); on text holding one well-formed JSON object with no brace
characters outside it, it returns that object's parsed structure; on text
missing `\x7b` or `\x7d` it returns `none`; and whenever the slice from the
first `\x7b` to the last `\x7d` fails to parse, it returns `none`. -/
theorem C1_extract_json_spec :
    (∀ (pre mid post : List Char) (j : Json),
      '\x7b' ∉ pre → '\x7d' ∉ pre → '\x7b' ∉ post → '\x7d' ∉ post →
      Json.parse (String.mk ('\x7b' :: mid ++ ['\x7d'])) = some j →
      extract_json (String.mk (pre ++ ('\x7b' :: mid ++ ['\x7d']) ++ post)) = some j)
    ∧ (∀ s : String, '\x7b' ∉ s.data ∨ '\x7d' ∉ s.data → extract_json s = none)
    ∧ (∀ (s : String) (i k : Nat),
        strFind s.data '\x7b' = some i → strRfind s.data '\x7d' = some k →
        Json.parse (String.mk ((s.data.drop i).take (k + 1 - i))) = none →
        extract_json s = none) := by
  refine ⟨?_, ?_, ?_⟩
  · intro pre mid post j h1 _ _ h4 hp
    have hf : strFind (pre ++ ('\x7b' :: mid ++ ['\x7d']) ++ post) '\x7b'
        = some pre.length := by
      have he : pre ++ ('\x7b' :: mid ++ ['\x7d']) ++ post
          = pre ++ '\x7b' :: (mid ++ ['\x7d'] ++ post) := by simp
      rw [he]
      exact strFind_append_cons _ _ _ h1
    have hr : strRfind (pre ++ ('\x7b' :: mid ++ ['\x7d']) ++ post) '\x7d'
        = some (pre.length + mid.length + 1) := by
      have he : pre ++ ('\x7b' :: mid ++ ['\x7d']) ++ post
          = (pre ++ '\x7b' :: mid) ++ '\x7d' :: post := by simp
      rw [he, strRfind_append_cons _ _ _ h4]
      have : (pre ++ '\x7b' :: mid).length = pre.length + mid.length + 1 := by
        simp [List.length_append]
        omega
      rw [this]
    rw [extract_json_slice _ _ _ hf hr]
    have harith : pre.length + mid.length + 1 + 1 - pre.length = mid.length + 2 := by omega
    have hslice :
        (((pre ++ ('\x7b' :: mid ++ ['\x7d']) ++ post).drop pre.length).take
          (pre.length + mid.length + 1 + 1 - pre.length)) = '\x7b' :: mid ++ ['\x7d'] := by
      rw [harith]
      have he : pre ++ ('\x7b' :: mid ++ ['\x7d']) ++ post
          = pre ++ (('\x7b' :: mid ++ ['\x7d']) ++ post) := by simp
      rw [he, List.drop_left]
      have hlen : ('\x7b' :: mid ++ ['\x7d']).length = mid.length + 2 := by simp
      rw [← hlen, List.take_left]
    rw [show (String.mk (pre ++ ('\x7b' :: mid ++ ['\x7d']) ++ post)).data
        = pre ++ ('\x7b' :: mid ++ ['\x7d']) ++ post from rfl, hslice]
    exact hp
  · intro s h
    rcases h with h | h
    · have hf : strFind s.data '\x7b' = none := (strFind_eq_none_iff _ _).mpr h
      cases hr : strRfind s.data '\x7d' <;> simp [extract_json, hf, hr]
    · have hr : strFind s.data.reverse '\x7d' = none :=
        (strFind_eq_none_iff _ _).mpr (by simpa using h)
      have hr2 : strRfind s.data '\x7d' = none := by simp [strRfind, hr]
      cases hf : strFind s.data '\x7b' <;> simp [extract_json, hf, hr2]
  · intro s i k hf hr hp
    rw [extract_json_slice _ _ _ hf hr]
    exact hp

/-- Concrete instances of the three cases of `C1_extract_json_spec`. -/
theorem C1_extract_json_spec_witness :
    extract_json (String.mk ("ab".data ++ ('\x7b' :: "\"a\":1".data ++ ['\x7d']) ++ "cd".data))
        = some (Json.obj [("a", Json.num "1")])
    ∧ extract_json "no json here" = none
    ∧ extract_json "\x7d\x7b" = none :=
  ⟨C1_extract_json_spec.1 "ab".data "\"a\":1".data "cd".data (Json.obj [("a", Json.num "1")])
      (by decide) (by decide) (by decide) (by decide) (by decide),
   C1_extract_json_spec.2.1 "no json here" (Or.inl (by decide)),
   C1_extract_json_spec.2.2 "\x7d\x7b" 1 0 (by decide) (by decide) (by decide)⟩

theorem intercalate_go_append (s : String) :
    ∀ (l : List String) (a b : String),
      String.intercalate.go (a ++ b) s l = a ++ String.intercalate.go b s l
  | [], _, _ => rfl
  | x :: xs, a, b => by
    show String.intercalate.go (a ++ b ++ s ++ x) s xs
        = a ++ String.intercalate.go (b ++ s ++ x) s xs
    rw [show a ++ b ++ s ++ x = a ++ (b ++ s ++ x) by simp [String.append_assoc]]
    exact intercalate_go_append s xs a (b ++ s ++ x)

theorem intercalate_spaced (items : List TranscriptItem) :
    String.intercalate " " (items.map (fun i => i.text)) = spacedTexts items := by
  induction items with
  | nil => rfl
  | cons item rest ih =>
    cases rest with
    | nil => rfl
    | cons next rest2 =>
      have h2 : String.intercalate " " ((item :: next :: rest2).map (fun i => i.text))
          = item.text ++ " "
            ++ String.intercalate " " ((next :: rest2).map (fun i => i.text)) := by
        show String.intercalate.go (item.text ++ " " ++ next.text) " "
            (rest2.map (fun i => i.text))
          = item.text ++ " "
            ++ String.intercalate.go next.text " " (rest2.map (fun i => i.text))
        exact intercalate_go_append " " _ (item.text ++ " ") next.text
      rw [h2, ih]
      rfl

/-- C5: for every list returned by the transcript service, `extract_transcript`
yields the `text` fields joined with single spaces in input order; a
zero-record list yields the empty string, not a null result. -/
theorem C5_extract_transcript_spec :
    (∀ items : List TranscriptItem, items ≠ [] →
      extract_transcript (Except.ok items) = some (spacedTexts items))
    ∧ extract_transcript (Except.ok []) = some "" := by
  refine ⟨fun items _ => ?_, rfl⟩
  show some (String.intercalate " " (items.map (fun i => i.text))) = some (spacedTexts items)
  rw [intercalate_spaced]

/-- Concrete instance of `C5_extract_transcript_spec`: nonexistent records. -/
theorem C5_extract_transcript_spec_witness :
    extract_transcript (Except.ok [⟨"hello", 0, 1⟩, ⟨"world", 1, 2⟩]) = some "hello world"
    ∧ extract_transcript (Except.ok []) = some "" :=
  ⟨(C5_extract_transcript_spec.1 [⟨"hello", 0, 1⟩, ⟨"world", 1, 2⟩]
      (List.cons_ne_nil _ _)).trans rfl,
   C5_extract_transcript_spec.2⟩

/-- C6 counterexample: with an empty summary-stage model response, the summary
becomes the fixed warning string, but mind-map generation is still attempted —
the pipeline is not halted at the summary stage. -/
theorem C6_counterexample :
    (run_pipeline (some "transcript") (some "") (some "mind map text")).mindMapAttempted = true
    ∧ generate_summary (some "") = "⚠️ Error generating summary!" := by
  exact ⟨rfl, rfl⟩

/-- C6 amended: whenever the summary-stage model response has an empty or falsy
text field, `generate_summary` returns the fixed warning string instead of the
model text, the condition is detected by a falsy-text check — but the pipeline
is NOT halted at the summary stage: for every action that reaches it (a truthy,
i.e. non-empty, transcript), the warning string is itself truthy, so the
handler proceeds to attempt mind-map generation with the warning string
standing in as the summary. -/
theorem C6_amended_spec :
    ∀ resp : Option String, (resp = none ∨ resp = some "") →
      generate_summary resp = "⚠️ Error generating summary!"
      ∧ ∀ ts : String, ts ≠ "" → ∀ mm : Option String,
          run_pipeline (some ts) resp mm
            = ⟨some "⚠️ Error generating summary!", true, generate_mind_map mm⟩ := by
  intro resp h
  rcases h with h | h <;> subst h <;>
    · refine ⟨rfl, fun ts hts mm => ?_⟩
      simp only [run_pipeline]
      rw [if_neg hts]
      rfl

/-- Concrete instance of `C6_amended_spec` at an empty-text response. -/
theorem C6_amended_spec_witness :
    generate_summary (some "") = "⚠️ Error generating summary!"
    ∧ run_pipeline (some "t") (some "") none
        = ⟨some "⚠️ Error generating summary!", true, none⟩ :=
  ⟨(C6_amended_spec (some "") (Or.inr rfl)).1,
   ((C6_amended_spec (some "") (Or.inr rfl)).2 "t" (by decide) none).trans rfl⟩

/-- C8: a non-empty prompt is submitted together with the image as one
generation request, an empty prompt submits the image alone; in both cases the
model's text response is returned verbatim. -/
theorem C8_get_gemini_response_spec :
    ∀ (model : GeminiRequest → GeminiResponse) (input : String) (image : PILImage),
      (input ≠ "" → get_gemini_response model input image
          = (model (GeminiRequest.textAndImage input image)).text)
      ∧ (input = "" → get_gemini_response model input image
          = (model (GeminiRequest.imageOnly image)).text) := by
  intro model input image
  refine ⟨fun h => ?_, fun h => ?_⟩
  · simp [get_gemini_response, h]
  · simp [get_gemini_response, h]

/-- Concrete instance of `C8_get_gemini_response_spec` for a model stub that
distinguishes the two request shapes. -/
theorem C8_get_gemini_response_spec_witness :
    get_gemini_response (fun r => match r with
        | GeminiRequest.textAndImage p _ => ⟨"pair: " ++ p⟩
        | GeminiRequest.imageOnly _ => ⟨"image only"⟩) "hi" ⟨"img"⟩ = "pair: hi"
    ∧ get_gemini_response (fun r => match r with
        | GeminiRequest.textAndImage p _ => ⟨"pair: " ++ p⟩
        | GeminiRequest.imageOnly _ => ⟨"image only"⟩) "" ⟨"img"⟩ = "image only" :=
  ⟨((C8_get_gemini_response_spec _ "hi" ⟨"img"⟩).1 (by decide)).trans rfl,
   ((C8_get_gemini_response_spec _ "" ⟨"img"⟩).2 rfl).trans rfl⟩

/-- C2: for one title, one subtopic and two children, all four names distinct,
the rendered graph is exactly one root node, one subtopic node and two leaf
nodes, with the root→subtopic edge and the two subtopic→leaf edges. -/
theorem C2_create_mind_map_visual_counts :
    ∀ t s c1 c2 : String,
      t ≠ s → t ≠ c1 → t ≠ c2 → s ≠ c1 → s ≠ c2 → c1 ≠ c2 →
      create_mind_map_visual (mkMindMap t [(s, [c1, c2])])
        = some ⟨[Json.str t, Json.str s, Json.str c1, Json.str c2],
                [(Json.str t, Json.str s), (Json.str s, Json.str c1),
                 (Json.str s, Json.str c2)]⟩ := by
  intro t s c1 c2 h1 h2 h3 h4 h5 h6
  simp [create_mind_map_visual, mkMindMap, mkSub, mkChild, Json.getKey, Json.pyIter,
    processSubtopics, processChildren, Network.add_node, Network.add_edge,
    List.lookup, h1, h2, h3, h4, h5, h6,
    Ne.symm h1, Ne.symm h2, Ne.symm h3, Ne.symm h4, Ne.symm h5, Ne.symm h6]

/-- Concrete instance of `C2_create_mind_map_visual_counts`. -/
theorem C2_create_mind_map_visual_counts_witness :
    create_mind_map_visual (mkMindMap "Topic" [("Sub", ["A", "B"])])
      = some ⟨[Json.str "Topic", Json.str "Sub", Json.str "A", Json.str "B"],
              [(Json.str "Topic", Json.str "Sub"), (Json.str "Sub", Json.str "A"),
               (Json.str "Sub", Json.str "B")]⟩ :=
  C2_create_mind_map_visual_counts "Topic" "Sub" "A" "B"
    (by decide) (by decide) (by decide) (by decide) (by decide) (by decide)

theorem add_node_mem (net : Network) (id : Json) : id ∈ (net.add_node id).nodes := by
  unfold Network.add_node
  by_cases h : id ∈ net.nodes <;> simp [h]

theorem add_node_mono (net : Network) (id x : Json) (h : x ∈ net.nodes) :
    x ∈ (net.add_node id).nodes := by
  unfold Network.add_node
  by_cases hid : id ∈ net.nodes <;> simp [hid, h]

theorem add_node_edges (net : Network) (id : Json) :
    (net.add_node id).edges = net.edges := by
  unfold Network.add_node
  by_cases hid : id ∈ net.nodes <;> simp [hid]

theorem add_node_nodup (net : Network) (id : Json) (h : net.nodes.Nodup) :
    (net.add_node id).nodes.Nodup := by
  unfold Network.add_node
  by_cases hid : id ∈ net.nodes
  · simpa [hid]
  · simp [hid, List.nodup_append, h, hid]

theorem add_edge_ok (net : Network) (src dst : Json) (h1 : src ∈ net.nodes)
    (h2 : dst ∈ net.nodes) :
    net.add_edge src dst = some { net with edges := net.edges ++ [(src, dst)] } := by
  simp [Network.add_edge, h1, h2]

theorem add_edge_nodes (net net' : Network) (src dst : Json)
    (h : net.add_edge src dst = some net') : net'.nodes = net.nodes := by
  unfold Network.add_edge at h
  by_cases hc : src ∈ net.nodes ∧ dst ∈ net.nodes
  · rw [if_pos hc] at h
    cases h
    rfl
  · rw [if_neg hc] at h
    cases h

theorem add_edge_edges_mono (net net' : Network) (src dst : Json) (e : Json × Json)
    (h : net.add_edge src dst = some net') (he : e ∈ net.edges) : e ∈ net'.edges := by
  unfold Network.add_edge at h
  by_cases hc : src ∈ net.nodes ∧ dst ∈ net.nodes
  · rw [if_pos hc] at h
    cases h
    simp [he]
  · rw [if_neg hc] at h
    cases h

theorem processChildren_fail (sname : Json) :
    ∀ (children : List Json) (net : Network),
      (∃ child ∈ children, child.getKey "name" = none) →
      processChildren net sname children = none
  | [], _, h => by simp at h
  | child :: rest, net, h => by
    cases hc : child.getKey "name" with
    | none => simp [processChildren, hc]
    | some cname =>
      have hrest : ∃ c ∈ rest, Json.getKey c "name" = none := by
        rcases h with ⟨c, hmem, hnone⟩
        rcases List.mem_cons.mp hmem with rfl | hmem2
        · rw [hc] at hnone
          cases hnone
        · exact ⟨c, hmem2, hnone⟩
      cases he : (net.add_node cname).add_edge sname cname with
      | none => simp [processChildren, hc, he]
      | some net2 =>
        simp [processChildren, hc, he, processChildren_fail sname rest net2 hrest]

theorem processSubtopics_fail (root : Json) :
    ∀ (subs : List Json) (net : Network),
      (∃ s ∈ subs, BadSub s) →
      processSubtopics net root subs = none
  | [], _, h => by simp at h
  | sub :: rest, net, h => by
    cases hn : sub.getKey "name" with
    | none => simp [processSubtopics, hn]
    | some sname =>
      cases he : (net.add_node sname).add_edge root sname with
      | none => simp [processSubtopics, hn, he]
      | some net2 =>
        cases hch : sub.getKey "children" with
        | none => simp [processSubtopics, hn, he, hch]
        | some cv =>
          cases hit : cv.pyIter with
          | none => simp [processSubtopics, hn, he, hch, hit]
          | some children =>
            cases hpc : processChildren net2 sname children with
            | none => simp [processSubtopics, hn, he, hch, hit, hpc]
            | some net3 =>
              have hrest : ∃ s ∈ rest, BadSub s := by
                rcases h with ⟨s, hmem, hbad⟩
                rcases List.mem_cons.mp hmem with rfl | hmem2
                · exfalso
                  rcases hbad with hb | hb | ⟨cs, hcs, hbadc⟩
                  · rw [hn] at hb
                    cases hb
                  · rw [hch] at hb
                    cases hb
                  · rw [hch] at hcs
                    cases hcs
                    rw [show Json.pyIter (Json.arr cs) = some cs from rfl] at hit
                    cases hit
                    rw [processChildren_fail sname children net2 hbadc] at hpc
                    cases hpc
                · exact ⟨s, hmem2, hbad⟩
              simp [processSubtopics, hn, he, hch, hit, hpc,
                processSubtopics_fail root rest net3 hrest]

/-- C7: a mind-map input lacking a required field — the top-level `title` or
`nodes` key, a subtopic's `name` or `children` key, or a child's `name` key —
makes `create_mind_map_visual` fail with an unhandled key-lookup exception at
render time (`none`); the renderer performs no validation or repair. -/
theorem C7_missing_fields_raise :
    (∀ d : Json, d.getKey "title" = none → create_mind_map_visual d = none)
    ∧ (∀ d : Json, d.getKey "nodes" = none → create_mind_map_visual d = none)
    ∧ (∀ (d : Json) (subs : List Json), d.getKey "nodes" = some (Json.arr subs) →
        (∃ s ∈ subs, s.getKey "name" = none ∨ s.getKey "children" = none) →
        create_mind_map_visual d = none)
    ∧ (∀ (d : Json) (subs : List Json) (sub : Json) (cs : List Json),
        d.getKey "nodes" = some (Json.arr subs) → sub ∈ subs →
        sub.getKey "children" = some (Json.arr cs) →
        (∃ c ∈ cs, c.getKey "name" = none) →
        create_mind_map_visual d = none) := by
  refine ⟨?_, ?_, ?_, ?_⟩
  · intro d h
    simp [create_mind_map_visual, h]
  · intro d h
    cases ht : d.getKey "title" <;> simp [create_mind_map_visual, ht, h]
  · intro d subs hn hex
    cases ht : d.getKey "title" with
    | none => simp [create_mind_map_visual, ht]
    | some root =>
      have hbad : ∃ s ∈ subs, BadSub s := by
        rcases hex with ⟨s, hmem, hs⟩
        exact ⟨s, hmem, hs.elim Or.inl (fun h2 => Or.inr (Or.inl h2))⟩
      simp [create_mind_map_visual, ht, hn, Json.pyIter,
        processSubtopics_fail root subs _ hbad]
  · intro d subs sub cs hn hmem hch hex
    cases ht : d.getKey "title" with
    | none => simp [create_mind_map_visual, ht]
    | some root =>
      have hbad : ∃ s ∈ subs, BadSub s :=
        ⟨sub, hmem, Or.inr (Or.inr ⟨cs, hch, hex⟩)⟩
      simp [create_mind_map_visual, ht, hn, Json.pyIter,
        processSubtopics_fail root subs _ hbad]

/-- Concrete instances of the four failure cases of `C7_missing_fields_raise`:
a document without `title`, one without `nodes`, a subtopic without `name`,
and a child without `name`. -/
theorem C7_missing_fields_raise_witness :
    create_mind_map_visual (Json.obj [("nodes", Json.arr [])]) = none
    ∧ create_mind_map_visual (Json.obj [("title", Json.str "T")]) = none
    ∧ create_mind_map_visual (Json.obj [("title", Json.str "T"),
        ("nodes", Json.arr [Json.obj [("children", Json.arr [])]])]) = none
    ∧ create_mind_map_visual (Json.obj [("title", Json.str "T"),
        ("nodes", Json.arr [Json.obj [("name", Json.str "S"),
          ("children", Json.arr [Json.obj []])]])]) = none :=
  ⟨C7_missing_fields_raise.1 _ rfl,
   C7_missing_fields_raise.2.1 _ rfl,
   C7_missing_fields_raise.2.2.1 _ [Json.obj [("children", Json.arr [])]] rfl
     ⟨Json.obj [("children", Json.arr [])], List.mem_singleton.mpr rfl, Or.inl rfl⟩,
   C7_missing_fields_raise.2.2.2 _ _ (Json.obj [("name", Json.str "S"),
       ("children", Json.arr [Json.obj []])]) [Json.obj []] rfl
     (List.mem_singleton.mpr rfl) rfl ⟨Json.obj [], List.mem_singleton.mpr rfl, rfl⟩⟩

theorem processChildren_nodup (sname : Json) :
    ∀ (children : List Json) (net net' : Network),
      processChildren net sname children = some net' →
      net.nodes.Nodup → net'.nodes.Nodup
  | [], net, net', h, hn => by
    cases h
    exact hn
  | child :: rest, net, net', h, hn => by
    cases hc : child.getKey "name" with
    | none => simp [processChildren, hc] at h
    | some cname =>
      cases he : (net.add_node cname).add_edge sname cname with
      | none => simp [processChildren, hc, he] at h
      | some net2 =>
        have h2 : processChildren net2 sname rest = some net' := by
          simpa [processChildren, hc, he] using h
        have hnodes2 : net2.nodes = (net.add_node cname).nodes :=
          add_edge_nodes _ _ _ _ he
        exact processChildren_nodup sname rest net2 net' h2
          (by rw [hnodes2]; exact add_node_nodup _ _ hn)

theorem processSubtopics_nodup (root : Json) :
    ∀ (subs : List Json) (net net' : Network),
      processSubtopics net root subs = some net' →
      net.nodes.Nodup → net'.nodes.Nodup
  | [], net, net', h, hn => by
    cases h
    exact hn
  | sub :: rest, net, net', h, hn => by
    cases hname : sub.getKey "name" with
    | none => simp [processSubtopics, hname] at h
    | some sname =>
      cases he : (net.add_node sname).add_edge root sname with
      | none => simp [processSubtopics, hname, he] at h
      | some net2 =>
        cases hch : sub.getKey "children" with
        | none => simp [processSubtopics, hname, he, hch] at h
        | some cv =>
          cases hit : cv.pyIter with
          | none => simp [processSubtopics, hname, he, hch, hit] at h
          | some children =>
            cases hpc : processChildren net2 sname children with
            | none => simp [processSubtopics, hname, he, hch, hit, hpc] at h
            | some net3 =>
              have h2 : processSubtopics net3 root rest = some net' := by
                simpa [processSubtopics, hname, he, hch, hit, hpc] using h
              have hnodes2 : net2.nodes = (net.add_node sname).nodes :=
                add_edge_nodes _ _ _ _ he
              have hn3 : net3.nodes.Nodup :=
                processChildren_nodup sname children net2 net3 hpc
                  (by rw [hnodes2]; exact add_node_nodup _ _ hn)
              exact processSubtopics_nodup root rest net3 net' h2 hn3

theorem cmv_nodup (d : Json) (g : Network)
    (h : create_mind_map_visual d = some g) : g.nodes.Nodup := by
  cases ht : d.getKey "title" with
  | none => simp [create_mind_map_visual, ht] at h
  | some root =>
    cases hn : d.getKey "nodes" with
    | none => simp [create_mind_map_visual, ht, hn] at h
    | some nv =>
      cases hit : nv.pyIter with
      | none => simp [create_mind_map_visual, ht, hn, hit] at h
      | some subs =>
        have h2 : processSubtopics ((Network.mk [] []).add_node root) root subs
            = some g := by
          simpa [create_mind_map_visual, ht, hn, hit] using h
        exact processSubtopics_nodup root subs _ g h2
          (add_node_nodup ⟨[], []⟩ root List.nodup_nil)

theorem processChildren_total (sname : Json) :
    ∀ (cs : List String) (net : Network), sname ∈ net.nodes →
      ∃ net', processChildren net sname (cs.map mkChild) = some net'
        ∧ (∀ x ∈ net.nodes, x ∈ net'.nodes)
        ∧ (∀ e ∈ net.edges, e ∈ net'.edges)
        ∧ sname ∈ net'.nodes
        ∧ (∀ c ∈ cs, Json.str c ∈ net'.nodes ∧ (sname, Json.str c) ∈ net'.edges)
  | [], net, hs => ⟨net, rfl, fun _ h => h, fun _ h => h, hs, by simp⟩
  | c :: rest, net, hs => by
    have hname : (mkChild c).getKey "name" = some (Json.str c) := rfl
    have hmem : Json.str c ∈ (net.add_node (Json.str c)).nodes := add_node_mem _ _
    have hs1 : sname ∈ (net.add_node (Json.str c)).nodes := add_node_mono _ _ _ hs
    have hedge := add_edge_ok (net.add_node (Json.str c)) sname (Json.str c) hs1 hmem
    set net2 : Network :=
      { net.add_node (Json.str c) with
        edges := (net.add_node (Json.str c)).edges ++ [(sname, Json.str c)] } with hnet2
    have hs2 : sname ∈ net2.nodes := hs1
    obtain ⟨net', hrun, hmono, hemono, hsn, hcs⟩ := processChildren_total sname rest net2 hs2
    refine ⟨net', ?_, ?_, ?_, hsn, ?_⟩
    · simp only [List.map_cons, processChildren, hname, Option.bind_eq_bind,
        Option.some_bind, hedge]
      exact hrun
    · intro x hx
      exact hmono x (add_node_mono _ _ _ hx)
    · intro e he
      refine hemono e ?_
      show e ∈ (net.add_node (Json.str c)).edges ++ [(sname, Json.str c)]
      rw [add_node_edges]
      simp [he]
    · intro c2 hc2
      rcases List.mem_cons.mp hc2 with rfl | hc2r
      · refine ⟨hmono _ hmem, hemono _ ?_⟩
        show (sname, Json.str c2) ∈ (net.add_node (Json.str c2)).edges ++ [(sname, Json.str c2)]
        simp
      · exact hcs c2 hc2r

theorem processSubtopics_total (root : Json) :
    ∀ (subs : List (String × List String)) (net : Network), root ∈ net.nodes →
      ∃ net', processSubtopics net root (subs.map fun p => mkSub p.1 p.2) = some net'
        ∧ (∀ x ∈ net.nodes, x ∈ net'.nodes)
        ∧ (∀ e ∈ net.edges, e ∈ net'.edges)
        ∧ ∀ p ∈ subs, Json.str p.1 ∈ net'.nodes ∧ (root, Json.str p.1) ∈ net'.edges
            ∧ ∀ c ∈ p.2, Json.str c ∈ net'.nodes ∧ (Json.str p.1, Json.str c) ∈ net'.edges
  | [], net, hr => ⟨net, rfl, fun _ h => h, fun _ h => h, by simp⟩
  | (s, cs) :: rest, net, hr => by
    have hname : (mkSub s cs).getKey "name" = some (Json.str s) := rfl
    have hch : (mkSub s cs).getKey "children" = some (Json.arr (cs.map mkChild)) := rfl
    have hmem : Json.str s ∈ (net.add_node (Json.str s)).nodes := add_node_mem _ _
    have hr1 : root ∈ (net.add_node (Json.str s)).nodes := add_node_mono _ _ _ hr
    have hedge := add_edge_ok (net.add_node (Json.str s)) root (Json.str s) hr1 hmem
    set net2 : Network :=
      { net.add_node (Json.str s) with
        edges := (net.add_node (Json.str s)).edges ++ [(root, Json.str s)] } with hnet2
    have hs2 : Json.str s ∈ net2.nodes := hmem
    obtain ⟨net3, hrun3, hmono3, hemono3, _, hcs3⟩ :=
      processChildren_total (Json.str s) cs net2 hs2
    have hr3 : root ∈ net3.nodes := hmono3 _ hr1
    obtain ⟨net', hrun, hmono, hemono, hsubs⟩ := processSubtopics_total root rest net3 hr3
    have hedge2 : (root, Json.str s) ∈ net2.edges := by
      show (root, Json.str s) ∈ (net.add_node (Json.str s)).edges ++ [(root, Json.str s)]
      simp
    refine ⟨net', ?_, ?_, ?_, ?_⟩
    · simp only [List.map_cons, processSubtopics, hname, hch, Option.bind_eq_bind,
        Option.some_bind, hedge,
        show Json.pyIter (Json.arr (cs.map mkChild)) = some (cs.map mkChild) from rfl,
        hrun3]
      exact hrun
    · intro x hx
      exact hmono x (hmono3 x (add_node_mono _ _ _ hx))
    · intro e he
      refine hemono e (hemono3 e ?_)
      show e ∈ (net.add_node (Json.str s)).edges ++ [(root, Json.str s)]
      rw [add_node_edges]
      simp [he]
    · intro p hp
      rcases List.mem_cons.mp hp with rfl | hpr
      · refine ⟨hmono _ (hmono3 _ hmem), hemono _ (hemono3 _ hedge2), fun c hc => ?_⟩
        obtain ⟨hcn, hce⟩ := hcs3 c hc
        exact ⟨hmono _ hcn, hemono _ hce⟩
      · exact hsubs p hpr

theorem cmv_mkMindMap_total (t : String) (subs : List (String × List String)) :
    ∃ g, create_mind_map_visual (mkMindMap t subs) = some g
      ∧ Json.str t ∈ g.nodes
      ∧ ∀ p ∈ subs, Json.str p.1 ∈ g.nodes ∧ (Json.str t, Json.str p.1) ∈ g.edges
          ∧ ∀ c ∈ p.2, Json.str c ∈ g.nodes ∧ (Json.str p.1, Json.str c) ∈ g.edges := by
  have hroot : Json.str t ∈ ((Network.mk [] []).add_node (Json.str t)).nodes :=
    add_node_mem _ _
  obtain ⟨g, hrun, hmono, _, hsubs⟩ := processSubtopics_total (Json.str t) subs _ hroot
  refine ⟨g, ?_, hmono _ hroot, hsubs⟩
  simp only [create_mind_map_visual,
    show (mkMindMap t subs).getKey "title" = some (Json.str t) from rfl,
    show (mkMindMap t subs).getKey "nodes"
        = some (Json.arr (subs.map fun p => mkSub p.1 p.2)) from rfl,
    show Json.pyIter (Json.arr (subs.map fun p => mkSub p.1 p.2))
        = some (subs.map fun p => mkSub p.1 p.2) from rfl,
    Option.bind_eq_bind, Option.some_bind]
  exact hrun

/-- C3: node identity in the rendered graph is the display label: the node list
of every successfully rendered graph has no duplicates; in particular, when two
distinct subtopics each have a child of the same name, that name yields a
single merged leaf node with an incoming edge from each of the two subtopic
nodes. -/
theorem C3_shared_child_merges :
    (∀ (d : Json) (g : Network), create_mind_map_visual d = some g → g.nodes.Nodup)
    ∧ (∀ (t s1 s2 c : String) (cs1 cs2 : List String),
        s1 ≠ s2 → c ∈ cs1 → c ∈ cs2 →
        ∃ g, create_mind_map_visual (mkMindMap t [(s1, cs1), (s2, cs2)]) = some g
          ∧ g.nodes.count (Json.str c) = 1
          ∧ (Json.str s1, Json.str c) ∈ g.edges
          ∧ (Json.str s2, Json.str c) ∈ g.edges) := by
  refine ⟨cmv_nodup, ?_⟩
  intro t s1 s2 c cs1 cs2 _ hc1 hc2
  obtain ⟨g, hrun, _, hsubs⟩ := cmv_mkMindMap_total t [(s1, cs1), (s2, cs2)]
  have h1 := hsubs (s1, cs1) (by simp)
  have h2 := hsubs (s2, cs2) (by simp)
  have hcnode : Json.str c ∈ g.nodes := (h1.2.2 c hc1).1
  have hnodup : g.nodes.Nodup := cmv_nodup _ _ hrun
  exact ⟨g, hrun, List.count_eq_one_of_mem hnodup hcnode,
    (h1.2.2 c hc1).2, (h2.2.2 c hc2).2⟩

/-- Concrete instance of `C3_shared_child_merges`: subtopics `S1` and `S2` both
have a child `Overview`. -/
theorem C3_shared_child_merges_witness :
    (∃ g, create_mind_map_visual
        (mkMindMap "T" [("S1", ["Overview"]), ("S2", ["Overview"])]) = some g
      ∧ g.nodes.count (Json.str "Overview") = 1
      ∧ (Json.str "S1", Json.str "Overview") ∈ g.edges
      ∧ (Json.str "S2", Json.str "Overview") ∈ g.edges)
    ∧ ∀ g2 : Network,
        create_mind_map_visual (mkMindMap "T" [("S1", ["Overview"]), ("S2", ["Overview"])])
          = some g2 → g2.nodes.Nodup :=
  ⟨C3_shared_child_merges.2 "T" "S1" "S2" "Overview" ["Overview"] ["Overview"]
      (by decide) (by simp) (by simp),
   fun g2 h => C3_shared_child_merges.1 _ g2 h⟩

/-- C10: a well-shaped mind map whose subtopics may have empty `children`
lists renders without raising: every subtopic node and its root edge is added;
and the loop body over an empty `children` list adds nothing at all (zero leaf
nodes, zero outgoing edges). -/
theorem C10_empty_children_ok :
    (∀ (t : String) (subs : List (String × List String)),
      ∃ g, create_mind_map_visual (mkMindMap t subs) = some g
        ∧ ∀ p ∈ subs, Json.str p.1 ∈ g.nodes ∧ (Json.str t, Json.str p.1) ∈ g.edges)
    ∧ ∀ (net : Network) (sname : Json), processChildren net sname [] = some net := by
  refine ⟨?_, fun _ _ => rfl⟩
  intro t subs
  obtain ⟨g, hrun, _, hsubs⟩ := cmv_mkMindMap_total t subs
  exact ⟨g, hrun, fun p hp => ⟨(hsubs p hp).1, (hsubs p hp).2.1⟩⟩

/-- Concrete instance of `C10_empty_children_ok`: a subtopic with an empty
children list renders successfully with its node and root edge present. -/
theorem C10_empty_children_ok_witness :
    (∃ g, create_mind_map_visual (mkMindMap "T" [("A", [])]) = some g
      ∧ ∀ p ∈ [("A", ([] : List String))],
          Json.str p.1 ∈ g.nodes ∧ (Json.str "T", Json.str p.1) ∈ g.edges)
    ∧ processChildren ⟨[Json.str "A"], []⟩ (Json.str "A") [] = some ⟨[Json.str "A"], []⟩ :=
  ⟨C10_empty_children_ok.1 "T" [("A", [])],
   C10_empty_children_ok.2 ⟨[Json.str "A"], []⟩ (Json.str "A")⟩

theorem matchTok_eq_some (tok rest : List Char) (hlen : tok.length = 11)
    (hall : tok.all idChar = true) : matchTok (tok ++ rest) = some tok := by
  unfold matchTok
  have htake : (tok ++ rest).take 11 = tok := by
    rw [← hlen]
    exact List.take_left tok rest
  rw [htake]
  simp [hlen, hall]

theorem matchTok_some (cs tok : List Char) (h : matchTok cs = some tok) :
    tok = cs.take 11 ∧ tok.length = 11 ∧ tok.all idChar = true := by
  unfold matchTok at h
  by_cases hb : (cs.take 11).length = 11 ∧ (cs.take 11).all idChar = true
  · rw [if_pos hb] at h
    cases h
    exact ⟨rfl, hb.1, hb.2⟩
  · rw [if_neg hb] at h
    cases h

theorem matchAt_v (x : List Char) : matchAt ('v' :: '=' :: x) = matchTok x := rfl

theorem matchAt_slash (x : List Char) : matchAt ('/' :: x) = matchTok x := by
  cases x <;> rfl

theorem matchTok_nil : matchTok [] = none := rfl

theorem matchAt_some_decomp (cs tok : List Char) (h : matchAt cs = some tok) :
    (∃ rest, cs = 'v' :: '=' :: (tok ++ rest) ∨ cs = '/' :: (tok ++ rest))
    ∧ tok.length = 11 ∧ tok.all idChar = true := by
  match cs with
  | [] => simp [matchAt] at h
  | [c1] =>
    rw [show matchAt [c1] = (if c1 = '/' then matchTok [] else none) from rfl] at h
    by_cases hs : c1 = '/'
    · rw [if_pos hs, matchTok_nil] at h
      cases h
    · rw [if_neg hs] at h
      cases h
  | c1 :: c2 :: rest2 =>
    rw [show matchAt (c1 :: c2 :: rest2)
        = (if c1 = 'v' then (if c2 = '=' then matchTok rest2 else none)
           else if c1 = '/' then matchTok (c2 :: rest2) else none) from rfl] at h
    by_cases hv : c1 = 'v'
    · subst hv
      rw [if_pos rfl] at h
      by_cases heq : c2 = '='
      · subst heq
        rw [if_pos rfl] at h
        obtain ⟨htok, hlen, hall⟩ := matchTok_some rest2 tok h
        have hsplit : rest2 = tok ++ rest2.drop 11 := by
          rw [htok]
          exact (List.take_append_drop 11 rest2).symm
        exact ⟨⟨rest2.drop 11, Or.inl (by rw [← hsplit])⟩, hlen, hall⟩
      · rw [if_neg heq] at h
        cases h
    · rw [if_neg hv] at h
      by_cases hs : c1 = '/'
      · subst hs
        rw [if_pos rfl] at h
        obtain ⟨htok, hlen, hall⟩ := matchTok_some (c2 :: rest2) tok h
        have hsplit : c2 :: rest2 = tok ++ (c2 :: rest2).drop 11 := by
          rw [htok]
          exact (List.take_append_drop 11 (c2 :: rest2)).symm
        exact ⟨⟨(c2 :: rest2).drop 11, Or.inr (by rw [← hsplit])⟩, hlen, hall⟩
      · rw [if_neg hs] at h
        cases h

theorem reSearch_first : ∀ (k : Nat) (cs tok : List Char),
    (∀ i, i < k → matchAt (cs.drop i) = none) → matchAt (cs.drop k) = some tok →
    reSearch cs = some tok
  | 0, cs, tok, _, hm => by
    rw [List.drop_zero] at hm
    cases cs with
    | nil => simp [matchAt] at hm
    | cons c rest => simp [reSearch, hm]
  | k + 1, cs, tok, hnone, hm => by
    cases cs with
    | nil =>
      rw [List.drop_nil] at hm
      simp [matchAt] at hm
    | cons c rest =>
      have h0 : matchAt (c :: rest) = none := by
        have := hnone 0 (Nat.succ_pos k)
        rwa [List.drop_zero] at this
      have hstep : reSearch (c :: rest) = reSearch rest := by
        simp [reSearch, h0]
      rw [hstep]
      refine reSearch_first k rest tok (fun i hi => ?_) ?_
      · have := hnone (i + 1) (Nat.succ_lt_succ hi)
        rwa [List.drop_succ_cons] at this
      · rwa [List.drop_succ_cons] at hm

theorem reSearch_some_exists : ∀ (cs tok : List Char), reSearch cs = some tok →
    ∃ i, matchAt (cs.drop i) = some tok
  | [], tok, h => by simp [reSearch] at h
  | c :: rest, tok, h => by
    cases hm : matchAt (c :: rest) with
    | some tok2 =>
      simp only [reSearch, hm] at h
      cases h
      exact ⟨0, by rw [List.drop_zero]; exact hm⟩
    | none =>
      have h2 : reSearch rest = some tok := by
        simpa only [reSearch, hm] using h
      obtain ⟨i, hi⟩ := reSearch_some_exists rest tok h2
      exact ⟨i + 1, by rw [List.drop_succ_cons]; exact hi⟩

theorem reSearch_isSome_of : ∀ (cs : List Char) (i : Nat) (tok : List Char),
    matchAt (cs.drop i) = some tok → ∃ tok2, reSearch cs = some tok2
  | [], _, _, h => by
    rw [List.drop_nil] at h
    simp [matchAt] at h
  | c :: rest, 0, tok, h => by
    rw [List.drop_zero] at h
    exact ⟨tok, by simp [reSearch, h]⟩
  | c :: rest, i + 1, tok, h => by
    rw [List.drop_succ_cons] at h
    cases hm : matchAt (c :: rest) with
    | some tok2 => exact ⟨tok2, by simp [reSearch, hm]⟩
    | none =>
      obtain ⟨tok2, h2⟩ := reSearch_isSome_of rest i tok h
      exact ⟨tok2, by simp [reSearch, hm, h2]⟩

theorem matchAt_at_decomp (u : String) (pre tok rest : List Char)
    (hor : u.data = pre ++ 'v' :: '=' :: (tok ++ rest)
      ∨ u.data = pre ++ '/' :: (tok ++ rest))
    (hlen : tok.length = 11) (hall : tok.all idChar = true) :
    matchAt (u.data.drop pre.length) = some tok := by
  rcases hor with hcs | hcs
  · rw [hcs, List.drop_left, matchAt_v]
    exact matchTok_eq_some tok rest hlen hall
  · rw [hcs, List.drop_left, matchAt_slash]
    exact matchTok_eq_some tok rest hlen hall

theorem get_video_id_leftmost (u : String) (pre tok : List Char)
    (h : VideoIdMatch u.data pre tok)
    (hmin : ∀ pre' tok', VideoIdMatch u.data pre' tok' → pre.length ≤ pre'.length) :
    get_video_id u = some (String.mk tok) := by
  obtain ⟨⟨rest, hor⟩, hlen, hall⟩ := h
  have hmatch : matchAt (u.data.drop pre.length) = some tok :=
    matchAt_at_decomp u pre tok rest hor hlen hall
  have hnone : ∀ i, i < pre.length → matchAt (u.data.drop i) = none := by
    intro i hi
    cases hm : matchAt (u.data.drop i) with
    | none => rfl
    | some tok2 =>
      exfalso
      obtain ⟨⟨rest2, hor2⟩, hlen2, hall2⟩ := matchAt_some_decomp _ _ hm
      have hilen : i ≤ u.data.length := by
        rcases hor with hcs | hcs <;>
          · rw [hcs]
            simp [List.length_append]
            omega
      have hti : (u.data.take i).length = i := by
        rw [List.length_take]
        exact Nat.min_eq_left hilen
      have hpre' : VideoIdMatch u.data (u.data.take i) tok2 := by
        refine ⟨⟨rest2, ?_⟩, hlen2, hall2⟩
        rcases hor2 with h2 | h2
        · refine Or.inl ?_
          conv_lhs => rw [← List.take_append_drop i u.data]
          rw [h2]
        · refine Or.inr ?_
          conv_lhs => rw [← List.take_append_drop i u.data]
          rw [h2]
      have hle := hmin _ _ hpre'
      rw [hti] at hle
      omega
  have hfound := reSearch_first pre.length u.data tok hnone hmatch
  simp [get_video_id, hfound]

/-- C4: for every string containing an 11-character token over the allowed
class immediately preceded by `v=` or `/`, `get_video_id` returns exactly the
first such match's captured group; for every string containing no such
pattern, it returns `None`. -/
theorem C4_get_video_id_spec :
    (∀ (u : String) (pre tok : List Char),
      VideoIdMatch u.data pre tok →
      (∀ pre' tok', VideoIdMatch u.data pre' tok' → pre.length ≤ pre'.length) →
      get_video_id u = some (String.mk tok))
    ∧ (∀ u : String, (¬ ∃ pre tok, VideoIdMatch u.data pre tok) →
        get_video_id u = none) := by
  refine ⟨get_video_id_leftmost, ?_⟩
  intro u h
  cases hr : reSearch u.data with
  | none => simp [get_video_id, hr]
  | some tok =>
    exfalso
    obtain ⟨i, hi⟩ := reSearch_some_exists u.data tok hr
    obtain ⟨⟨rest, hor⟩, hlen, hall⟩ := matchAt_some_decomp _ _ hi
    refine h ⟨u.data.take i, tok, ⟨rest, ?_⟩, hlen, hall⟩
    rcases hor with h2 | h2
    · refine Or.inl ?_
      conv_lhs => rw [← List.take_append_drop i u.data]
      rw [h2]
    · refine Or.inr ?_
      conv_lhs => rw [← List.take_append_drop i u.data]
      rw [h2]

/-- Concrete instances of `C4_get_video_id_spec`: a URL-like string whose
match starts at the beginning, and a string with no match. -/
theorem C4_get_video_id_spec_witness :
    get_video_id "v=dQw4w9WgXcQ" = some (String.mk "dQw4w9WgXcQ".data)
    ∧ get_video_id "hello" = none := by
  constructor
  · exact C4_get_video_id_spec.1 "v=dQw4w9WgXcQ" [] "dQw4w9WgXcQ".data
      ⟨⟨[], Or.inl (by decide)⟩, by decide, by decide⟩
      (fun pre' tok' _ => Nat.zero_le _)
  · refine C4_get_video_id_spec.2 "hello" ?_
    rintro ⟨pre, tok, ⟨rest, hor | hor⟩, hlen, -⟩
    · have hl := congrArg List.length hor
      rw [show ("hello".data).length = 5 from rfl] at hl
      simp [List.length_append, hlen] at hl
      omega
    · have hl := congrArg List.length hor
      rw [show ("hello".data).length = 5 from rfl] at hl
      simp [List.length_append, hlen] at hl
      omega

/-- C9: when `v=` or `/` is immediately followed by a run of 12 or more
allowed characters, `get_video_id` does not return `None`; and when that run
is the first match position, it returns exactly the first 11 characters of the
run, silently truncating it. -/
theorem C9_get_video_id_truncates :
    (∀ (u : String) (pre run : List Char),
      (∃ rest, u.data = pre ++ 'v' :: '=' :: (run ++ rest)
        ∨ u.data = pre ++ '/' :: (run ++ rest)) →
      12 ≤ run.length → run.all idChar = true →
      get_video_id u ≠ none)
    ∧ (∀ (u : String) (pre run : List Char),
      (∃ rest, u.data = pre ++ 'v' :: '=' :: (run ++ rest)
        ∨ u.data = pre ++ '/' :: (run ++ rest)) →
      12 ≤ run.length → run.all idChar = true →
      (∀ pre' tok', VideoIdMatch u.data pre' tok' → pre.length ≤ pre'.length) →
      get_video_id u = some (String.mk (run.take 11))) := by
  have hmk : ∀ (u : String) (pre run : List Char),
      (∃ rest, u.data = pre ++ 'v' :: '=' :: (run ++ rest)
        ∨ u.data = pre ++ '/' :: (run ++ rest)) →
      12 ≤ run.length → run.all idChar = true →
      VideoIdMatch u.data pre (run.take 11) := by
    intro u pre run ⟨rest, hor⟩ hlen hall
    have hsplit : run ++ rest = run.take 11 ++ (run.drop 11 ++ rest) := by
      rw [← List.append_assoc, List.take_append_drop]
    have hlen11 : (run.take 11).length = 11 := by
      rw [List.length_take]
      omega
    have hall11 : (run.take 11).all idChar = true := by
      rw [List.all_eq_true] at hall ⊢
      exact fun c hc => hall c (List.take_subset 11 run hc)
    refine ⟨⟨run.drop 11 ++ rest, ?_⟩, hlen11, hall11⟩
    rcases hor with hcs | hcs
    · exact Or.inl (by rw [hcs, hsplit])
    · exact Or.inr (by rw [hcs, hsplit])
  constructor
  · intro u pre run hor hlen hall
    obtain ⟨⟨rest, hor2⟩, hlen11, hall11⟩ := hmk u pre run hor hlen hall
    have hmatch : matchAt (u.data.drop pre.length) = some (run.take 11) :=
      matchAt_at_decomp u pre (run.take 11) rest hor2 hlen11 hall11
    obtain ⟨tok2, hsome⟩ := reSearch_isSome_of u.data pre.length _ hmatch
    simp [get_video_id, hsome]
  · intro u pre run hor hlen hall hmin
    exact get_video_id_leftmost u pre (run.take 11) (hmk u pre run hor hlen hall) hmin

/-- Concrete instance of `C9_get_video_id_truncates`: a 12-character run after
`v=` is truncated to its first 11 characters. -/
theorem C9_get_video_id_truncates_witness :
    get_video_id "v=abcdefghijkl" ≠ none
    ∧ get_video_id "v=abcdefghijkl" = some (String.mk ("abcdefghijkl".data.take 11)) := by
  constructor
  · exact C9_get_video_id_truncates.1 "v=abcdefghijkl" [] "abcdefghijkl".data
      ⟨[], Or.inl (by decide)⟩ (by decide) (by decide)
  · exact C9_get_video_id_truncates.2 "v=abcdefghijkl" [] "abcdefghijkl".data
      ⟨[], Or.inl (by decide)⟩ (by decide) (by decide)
      (fun pre' tok' _ => Nat.zero_le _)
